import Mathlib

/-!
Verification of the depot-resolution core of `main.py` (LuaMaker for SteamTools).

Text is modelled as `List Char`.  Each definition below is a shallow embedding
of a function (or an inline code region) of `src/main.py`; spec-side
definitions used for refinement comparisons are clearly marked as such.
-/

namespace LuaMaker

/-- Signed brace contribution of one character: `+1` for an opening brace,
`-1` for a closing brace, `0` otherwise. -/
def charDelta (c : Char) : Int :=
  if c = '{' then 1 else if c = '}' then -1 else 0

/-- Net brace depth of a character list (sum of `charDelta`). -/
def netDepth : List Char → Int
  | [] => 0
  | c :: l => charDelta c + netDepth l

/-- Embedding of Python `str.find(pat)` on character lists: index of the first
occurrence of `pat` as a contiguous substring, `none` if absent. -/
def findSub (pat : List Char) : List Char → Option Nat
  | [] => if pat.isPrefixOf [] then some 0 else none
  | c :: rest =>
    if pat.isPrefixOf (c :: rest) then some 0
    else (findSub pat rest).map (fun n => n + 1)

/-- `pat` occurs as a contiguous substring of `l`. -/
def occursIn (pat l : List Char) : Prop :=
  ∃ i : Nat, pat <+: l.drop i

/-- Boolean version of `occursIn`. -/
def containsSubB (l pat : List Char) : Bool :=
  (findSub pat l).isSome

/-- Embedding of Python slicing `l[a:b]` (for `0 ≤ a`, `0 ≤ b ≤ len l`;
returns `[]` when `b ≤ a`, as in Python). -/
def slice (l : List Char) (a b : Nat) : List Char :=
  (l.take b).drop a

/-- Embedding of Python `str.find(c, start)`: index of the first occurrence of
character `c` at position `start` or later. -/
def findCharFrom (c : Char) (l : List Char) (start : Nat) : Option Nat :=
  (findSub [c] (l.drop start)).map (fun n => n + start)

/-- Embedding of the brace-counting loop of `fetch_app_info`
(`src/main.py` lines 174-182): scan characters keeping a signed count,
`+1` on `{`, `-1` on `}`; return the (Python) index `i` of the first `}`
where the count returns to zero.  `i` is the Python index of the current
character, which is `-1` for the first visited character when the code's
`raw.find('{', key_index)` failed and returned `-1`. -/
def braceScan : List Char → Int → Int → Option Int
  | [], _, _ => none
  | c :: rest, count, i =>
    if c = '{' then braceScan rest (count + 1) (i + 1)
    else if c = '}' then
      if count - 1 = 0 then some i else braceScan rest (count - 1) (i + 1)
    else braceScan rest count (i + 1)

/-- The character sequence visited by the brace-counting loop, given the index
`ki` of the quoted-identifier occurrence: `raw[start:]` when
`start = raw.find('{', ki)` succeeds; otherwise Python's
`range(-1, len(raw))` visits `raw[-1]` (the last character, by negative
indexing) followed by the whole string. -/
def visitedChars (raw : List Char) (ki : Nat) : List Char :=
  match findCharFrom '{' raw ki with
  | some st => raw.drop st
  | none =>
    match raw.getLast? with
    | some c => c :: raw
    | none => []

/-- Error kinds of the record isolator (spec names: `RecordNotFoundError`,
`UnbalancedDelimiterError`; source: the two `ValueError`s of
`fetch_app_info`). -/
inductive IsoErr where
  | recordNotFound
  | unbalanced
deriving DecidableEq

/-- The quoted form `"<id>"` of an identifier, as searched for by both the
record isolator and the key resolver. -/
def quotedPat (id : List Char) : List Char :=
  '"' :: (id ++ ['"'])

/-- The value of Python's `start = raw.find('{', key_index)` in
`fetch_app_info`: the index of the first `{` at or after `ki`, or `-1`
when there is none (Python `find`'s failure value). -/
def startIdxOf (raw : List Char) (ki : Nat) : Int :=
  match findCharFrom '{' raw ki with
  | some st => (st : Int)
  | none => -1

/-- Embedding of the record-isolation region of `fetch_app_info`
(`src/main.py` lines 169-185): find the first occurrence of `"<id>"`, find
the first `{` from there (Python `find` returning `-1` when absent, which
makes the loop start at index `-1`), run the brace-counting loop, and
return `raw[key_index:end+1]`. -/
def isolate (raw id : List Char) : Except IsoErr (List Char) :=
  match findSub (quotedPat id) raw with
  | none => .error .recordNotFound
  | some ki =>
    match braceScan (visitedChars raw ki) 0 (startIdxOf raw ki) with
    | none => .error .unbalanced
    | some e => .ok (slice raw ki (e.toNat + 1))

/-- Error kinds of the key resolver (spec names: `DepotBlockNotFoundError`,
`KeyNotFoundError`; source: the two `ValueError`s of
`find_decryption_key`). -/
inductive KeyErr where
  | depotBlockNotFound
  | keyNotFound
deriving DecidableEq

/-- ASCII whitespace recognized by the regex class `\s` (the inputs of
interest are ASCII; non-ASCII Unicode whitespace is not modelled). -/
def isWs (c : Char) : Bool :=
  c = ' ' || c = '\t' || c = '\n' || c = '\r' || c = '\x0b' || c = '\x0c'

/-- Content up to (excluding) the first `}`, or `none` when no `}` occurs:
the lazy `(.*?)\}` part of the regex in `find_decryption_key`. -/
def splitAtBrace? : List Char → Option (List Char)
  | [] => none
  | c :: rest =>
    if c = '}' then some []
    else (splitAtBrace? rest).map (fun t => c :: t)

/-- Try to match the regex `"<did>"\s*\{(.*?)\}` (DOTALL) at the start of
`l`, returning the lazily-matched block content.  The depot id is matched
literally (actual depot identifiers contain no regex metacharacters). -/
def matchBlockAt (did : List Char) (l : List Char) : Option (List Char) :=
  if (quotedPat did).isPrefixOf l then
    match (l.drop (quotedPat did).length).dropWhile isWs with
    | c :: rest2 => if c = '{' then splitAtBrace? rest2 else none
    | [] => none
  else none

/-- The quoted literal `"DecryptionKey"` as characters. -/
def dkPattern : List Char :=
  ['"', 'D', 'e', 'c', 'r', 'y', 'p', 't', 'i', 'o', 'n', 'K', 'e', 'y', '"']

/-- The `([^"]+)"` tail of the key regex: a non-empty run of non-quote
characters that must be terminated by a closing quote. -/
def keyValAt (rest2 : List Char) : Option (List Char) :=
  if rest2.takeWhile (fun a => ! (a == '"')) = [] then none
  else
    match (rest2.drop (rest2.takeWhile (fun a => ! (a == '"'))).length).head? with
    | some c2 => if c2 = '"' then some (rest2.takeWhile (fun a => ! (a == '"'))) else none
    | none => none

/-- Try to match the regex `"DecryptionKey"\s*"([^"]+)"` at the start of `l`,
returning the (necessarily non-empty) captured value. -/
def matchKeyAt (l : List Char) : Option (List Char) :=
  if dkPattern.isPrefixOf l then
    match (l.drop dkPattern.length).dropWhile isWs with
    | c :: rest2 => if c = '"' then keyValAt rest2 else none
    | [] => none
  else none

/-- Leftmost-match search: try `f` at every start position, left to right
(the semantics of `re.search`). -/
def scanFirst (f : List Char → Option (List Char)) : List Char → Option (List Char)
  | [] => f []
  | c :: rest =>
    match f (c :: rest) with
    | some r => some r
    | none => scanFirst f rest

/-- The lazily-matched content of the first `"<did>" { ... }` block of `cfg`
(first stage of `find_decryption_key`). -/
def depotBlock (cfg did : List Char) : Option (List Char) :=
  scanFirst (matchBlockAt did) cfg

/-- Embedding of `find_decryption_key` (`src/main.py` lines 291-296): locate
the first `"<did>"\s*\{(.*?)\}` block (lazy, DOTALL), then the first
`"DecryptionKey"\s*"([^"]+)"` entry inside its content. -/
def find_decryption_key (cfg did : List Char) : Except KeyErr (List Char) :=
  match depotBlock cfg did with
  | none => .error .depotBlockNotFound
  | some content =>
    match scanFirst matchKeyAt content with
    | none => .error .keyNotFound
    | some k => .ok k

/-- The character sequence scanned by the brace-counting loop of `isolate`,
as a function of the raw text and identifier (`[]` when the identifier
does not occur). -/
def visitedOf (raw id : List Char) : List Char :=
  match findSub (quotedPat id) raw with
  | some ki => visitedChars raw ki
  | none => []

/-- Metadata tree node, the shape of `vdf.loads` output consumed by
`extract_depots`: a Python value that is either a string or a
(insertion-ordered) dict of string keys to further nodes. -/
inductive Node where
  | scalar (s : String)
  | map (entries : List (String × Node))

/-- Dict lookup on a map's entry list (first matching key, as in a Python
dict whose keys are unique). -/
def lookupN : List (String × Node) → String → Option Node
  | [], _ => none
  | (k', v) :: rest, k => if k' = k then some v else lookupN rest k

def depotsKey : String := "depots"

def manifestsKey : String := "manifests"

def publicKey : String := "public"

def gidKey : String := "gid"

def dlcappidKey : String := "dlcappid"

def configKey : String := "config"

def languageKey : String := "language"

/-- Outcomes of `extract_depots`: success, the two `pause_on_error` exits
(spec names `NoDepotsError` / `NoValidDepotsError`), or the uncaught
Python `AttributeError` raised by `.get` on a non-dict value. -/
inductive ExtractErr where
  | noDepots
  | noValid
  | attrError
deriving DecidableEq

/-- Embedding of the per-child body of `extract_depots` for a child that is a
dict (`src/main.py` lines 280-284): `info.get('manifests', {}).get('public')`
crashes with `AttributeError` when `manifests` is a string; otherwise the
child contributes its `gid` when `manifests.public.gid` is a non-empty
string. -/
def getManifestsGid (im : List (String × Node)) : Except ExtractErr (Option String) :=
  match lookupN im manifestsKey with
  | some (.scalar _) => .error .attrError
  | some (.map mm) =>
    match lookupN mm publicKey with
    | some (.map pm) =>
      match lookupN pm gidKey with
      | some (.scalar g) => if g = "" then .ok none else .ok (some g)
      | _ => .ok none
    | _ => .ok none
  | none => .ok none

/-- Embedding of the `for did, info in depots.items()` loop of
`extract_depots` (`src/main.py` lines 278-284), in iteration order. -/
def extractLoop : List (String × Node) → Except ExtractErr (List (String × String))
  | [] => .ok []
  | (did, info) :: rest =>
    match info with
    | .scalar _ => extractLoop rest
    | .map im =>
      match getManifestsGid im with
      | .error e => .error e
      | .ok none => extractLoop rest
      | .ok (some g) => (extractLoop rest).map (fun r => (did, g) :: r)

/-- Embedding of `extract_depots` (`src/main.py` lines 272-288).  A scalar
root crashes with `AttributeError` (Python `.get` on a string); a missing
or non-dict `depots` child is the `No depots section found` exit; an empty
result is the `No valid depots found` exit. -/
def extract_depots (ai : Node) : Except ExtractErr (List (String × String)) :=
  match ai with
  | .scalar _ => .error .attrError
  | .map es =>
    match lookupN es depotsKey with
    | some (.map dm) =>
      match extractLoop dm with
      | .error e => .error e
      | .ok r => if r = [] then .error .noValid else .ok r
    | _ => .error .noDepots

/-- Spec-side filter of §4.3, for refinement comparison with
`extract_depots`: a child is included exactly when it is a map whose
`manifests.public.gid` resolves to a non-empty scalar, which becomes the
content-version id. -/
def childPasses : Node → Option String
  | .scalar _ => none
  | .map im =>
    match lookupN im manifestsKey with
    | some (.map mm) =>
      match lookupN mm publicKey with
      | some (.map pm) =>
        match lookupN pm gidKey with
        | some (.scalar g) => if g = "" then none else some g
        | _ => none
      | _ => none
    | _ => none

/-- Spec-side candidate set: the children of the depots map that pass the
§4.3 filter, with their content-version ids, in order. -/
def passedChildren (dm : List (String × Node)) : List (String × String) :=
  dm.filterMap (fun p => (childPasses p.2).map (fun g => (p.1, g)))

/-- A child that makes `extract_depots` crash: a map whose `manifests` entry
is a scalar. -/
def childManifestsScalar (p : String × Node) : Bool :=
  match p.2 with
  | .map im =>
    match lookupN im manifestsKey with
    | some (.scalar _) => true
    | _ => false
  | _ => false

/-- No child of the depots map is a map with a scalar `manifests` entry
(the hypothesis under which `extract_depots` cannot crash). -/
def noScalarManifestsB (dm : List (String × Node)) : Bool :=
  dm.all (fun p => ! childManifestsScalar p)

/-- Modelled from the spec (§4.3): `isAddOn` is true iff the child map
contains a `dlcappid` key.  The source never computes this marker; it is
needed only to state the marker claims. -/
def depotIsAddOn (info : Node) : Bool :=
  match info with
  | .map es => (lookupN es dlcappidKey).isSome
  | _ => false

/-- Modelled from the spec (§4.3): `isLanguageRestricted` is true iff the
child map contains `config.language`.  The source never computes this
marker; it is needed only to state the marker claims. -/
def depotIsLangRestricted (info : Node) : Bool :=
  match info with
  | .map es =>
    match lookupN es configKey with
    | some (.map cm) => (lookupN cm languageKey).isSome
    | _ => false
  | _ => false

/-- Assoc-list lookup for string-keyed dicts of string-ish values. -/
def alookup {α : Type} : List (String × α) → String → Option α
  | [], _ => none
  | (k', v) :: rest, k => if k' = k then some v else alookup rest k

/-- Embedding of the key-resolution filter loop of `main`
(`src/main.py` lines 360-365): per depot, in order, attempt
`find_decryption_key`; on success record the key, on `ValueError`
(either error kind) pop the depot.  Returns the surviving
`depots` mapping and the `keys` mapping, both in insertion order. -/
def filter_depots (cfg : List Char) : List (String × String) →
    List (String × String) × List (String × List Char)
  | [] => ([], [])
  | (d, g) :: rest =>
    match find_decryption_key cfg d.toList with
    | .ok k =>
      ((d, g) :: (filter_depots cfg rest).1, (d, k) :: (filter_depots cfg rest).2)
    | .error _ => filter_depots cfg rest

/-- The application-registration line `addappid(<appid>)\n` written by
`write_lua`. -/
def appLine (appid : String) : List Char :=
  ("addappid(").toList ++ appid.toList ++ (")\n").toList

/-- One depot-registration line `addappid(<d>,1,"<key>")\n`. -/
def regLine (d : String) (k : List Char) : List Char :=
  ("addappid(").toList ++ d.toList ++ (",1,\"").toList ++ k ++ ("\")\n").toList

/-- One version-binding line `setManifestid(<d>,"<gid>")\n`. -/
def manLine (d g : String) : List Char :=
  ("setManifestid(").toList ++ d.toList ++ (",\"").toList ++ g.toList ++ ("\")\n").toList

/-- The first `write_lua` loop: one registration line per depot, looking each
key up in `keys`; `none` models the `KeyError` (caught by the bare
`except`, which makes `write_lua` return `False`). -/
def regLines (keys : List (String × List Char)) : List (String × String) → Option (List Char)
  | [] => some []
  | (d, _) :: rest =>
    match alookup keys d with
    | none => none
    | some k => (regLines keys rest).map (fun t => regLine d k ++ t)

/-- The second `write_lua` loop: one binding line per depot. -/
def manLines : List (String × String) → List Char
  | [] => []
  | (d, g) :: rest => manLine d g ++ manLines rest

/-- Embedding of `write_lua` (`src/main.py` lines 312-322): the text written
to `<appid>.lua` — the app line, then the registration lines in `depots`
order, then the binding lines in the same order; `none` when a key lookup
raises (the source then returns `False`). -/
def write_lua (appid : String) (depots : List (String × String))
    (keys : List (String × List Char)) : Option (List Char) :=
  match regLines keys depots with
  | none => none
  | some mid => some (appLine appid ++ mid ++ manLines depots)

/-- Embedding of the per-run core of `main` (`src/main.py` lines 357-373)
from the parsed tree on: extract depots, filter by key resolution, write
the script.  Errors are the `extract_depots` exits; key-resolution
failures never escape (they only drop depots). -/
def run_core (appid : String) (ai : Node) (cfg : List Char) :
    Except ExtractErr (Option (List Char)) :=
  (extract_depots ai).map
    (fun ds => write_lua appid (filter_depots cfg ds).1 (filter_depots cfg ds).2)

/-- Spec data model (§3): the unit ultimately emitted. -/
structure ResolvedDepot where
  depotId : String
  contentVersionId : String
  decryptionKey : List Char

/-- Spec-side emitter lines (§4.6/§6 grammar), for refinement comparison
with `write_lua`: the application line, then one registration line per
depot in order, then one binding line per depot in the same order — each
without its trailing newline. -/
def emitSpecLines (appId : String) (rds : List ResolvedDepot) : List (List Char) :=
  (("addappid(").toList ++ appId.toList ++ (")").toList)
    :: (rds.map (fun r =>
          ("addappid(").toList ++ r.depotId.toList ++ (",1,\"").toList ++
            r.decryptionKey ++ ("\")").toList)
        ++ rds.map (fun r =>
          ("setManifestid(").toList ++ r.depotId.toList ++ (",\"").toList ++
            r.contentVersionId.toList ++ ("\")").toList))

/-- Concatenation of a list of lines. -/
def concatLines : List (List Char) → List Char
  | [] => []
  | l :: ls => l ++ concatLines ls

/-- Spec-side emitted text: each line of `emitSpecLines` followed by a
newline, concatenated. -/
def emitSpec (appId : String) (rds : List ResolvedDepot) : List Char :=
  concatLines ((emitSpecLines appId rds).map (fun l => l ++ ['\n']))

/-! ### Prefix and substring-search lemmas -/

lemma isPre_iff {p l : List Char} : p.isPrefixOf l = true ↔ p <+: l := by
  induction p generalizing l with
  | nil =>
    constructor
    · intro _; exact ⟨l, rfl⟩
    · intro _; cases l <;> rfl
  | cons c cs ih =>
    cases l with
    | nil =>
      constructor
      · intro h; exact absurd h (by simp [List.isPrefixOf])
      · rintro ⟨t, ht⟩; exact absurd ht (by simp)
    | cons b bs =>
      simp only [List.isPrefixOf, Bool.and_eq_true, beq_iff_eq]
      constructor
      · rintro ⟨hcb, hp⟩
        obtain ⟨t, ht⟩ := ih.mp hp
        exact ⟨t, by simp [hcb, ht]⟩
      · rintro ⟨t, ht⟩
        injection ht with h1 h2
        exact ⟨h1, ih.mpr ⟨t, h2⟩⟩

lemma pre_drop {p l : List Char} (h : p <+: l) (i : Nat) :
    p.drop i <+: l.drop i := by
  obtain ⟨t, ht⟩ := h
  rcases Nat.le_total i p.length with hle | hge
  · exact ⟨t, by rw [← ht, List.drop_append_of_le_length hle]⟩
  · rw [List.drop_of_length_le hge]
    exact ⟨l.drop i, by simp⟩

lemma findSub_none_iff (pat : List Char) : ∀ l : List Char,
    findSub pat l = none ↔ ∀ i : Nat, ¬ pat <+: l.drop i := by
  intro l
  induction l with
  | nil =>
    by_cases h : pat.isPrefixOf [] = true
    · rw [show findSub pat [] = some 0 from by simp [findSub, h]]
      simp only [List.drop_nil]
      constructor
      · intro hc; exact absurd hc (by simp)
      · intro hall; exact absurd (isPre_iff.mp h) (hall 0)
    · rw [show findSub pat [] = none from by
        simp only [Bool.not_eq_true] at h; simp [findSub, h]]
      simp only [List.drop_nil]
      constructor
      · intro _ i hc
        exact h (isPre_iff.mpr hc)
      · intro _; trivial
  | cons c rest ih =>
    by_cases h : pat.isPrefixOf (c :: rest) = true
    · rw [show findSub pat (c :: rest) = some 0 from by simp [findSub, h]]
      constructor
      · intro hc; exact absurd hc (by simp)
      · intro hall; exact absurd (isPre_iff.mp h) (by simpa using hall 0)
    · rw [show findSub pat (c :: rest) = (findSub pat rest).map (fun n => n + 1) from by
        simp only [Bool.not_eq_true] at h; simp [findSub, h]]
      rw [Option.map_eq_none', ih]
      constructor
      · intro hall i
        cases i with
        | zero =>
          intro hc
          exact h (isPre_iff.mpr (by simpa using hc))
        | succ j => simpa using hall j
      · intro hall j
        simpa using hall (j + 1)

lemma findSub_some {pat : List Char} : ∀ {l : List Char} {n : Nat},
    findSub pat l = some n → pat <+: l.drop n := by
  intro l
  induction l with
  | nil =>
    intro n h
    by_cases hp : pat.isPrefixOf [] = true
    · rw [show findSub pat [] = some 0 from by simp [findSub, hp]] at h
      injection h with h1
      subst h1
      simpa using isPre_iff.mp hp
    · rw [show findSub pat [] = none from by
        simp only [Bool.not_eq_true] at hp; simp [findSub, hp]] at h
      exact absurd h (by simp)
  | cons c rest ih =>
    intro n h
    by_cases hp : pat.isPrefixOf (c :: rest) = true
    · rw [show findSub pat (c :: rest) = some 0 from by simp [findSub, hp]] at h
      injection h with h1
      subst h1
      simpa using isPre_iff.mp hp
    · rw [show findSub pat (c :: rest) = (findSub pat rest).map (fun n => n + 1) from by
        simp only [Bool.not_eq_true] at hp; simp [findSub, hp]] at h
      rw [Option.map_eq_some'] at h
      obtain ⟨m, hm, hn⟩ := h
      subst hn
      simpa using ih hm

lemma occursIn_drop {p l : List Char} {j : Nat} (h : occursIn p (l.drop j)) :
    occursIn p l := by
  obtain ⟨i, hi⟩ := h
  exact ⟨j + i, by rwa [List.drop_drop] at hi⟩

lemma occursIn_mono {p m l : List Char} (h1 : occursIn p m) (h2 : occursIn m l) :
    occursIn p l := by
  obtain ⟨i, hi⟩ := h1
  obtain ⟨j, hj⟩ := h2
  refine ⟨j + i, ?_⟩
  rw [← List.drop_drop]
  exact hi.trans (by simpa using pre_drop hj i)

lemma scanFirst_none_iff (f : List Char → Option (List Char)) :
    ∀ l : List Char, scanFirst f l = none ↔ ∀ i : Nat, f (l.drop i) = none := by
  intro l
  induction l with
  | nil =>
    simp only [scanFirst]
    constructor
    · intro h i; simpa using h
    · intro h; simpa using h 0
  | cons c rest ih =>
    simp only [scanFirst]
    cases hf : f (c :: rest) with
    | some r =>
      constructor
      · intro h; exact absurd h (by simp)
      · intro hall
        have := hall 0
        simp [hf] at this
    | none =>
      rw [ih]
      constructor
      · intro hall i
        cases i with
        | zero => simpa using hf
        | succ j => simpa using hall j
      · intro hall j
        simpa using hall (j + 1)

lemma scanFirst_some_first (f : List Char → Option (List Char)) :
    ∀ {l r : List Char}, scanFirst f l = some r →
    ∃ i : Nat, f (l.drop i) = some r ∧ ∀ j : Nat, j < i → f (l.drop j) = none := by
  intro l
  induction l with
  | nil =>
    intro r h
    exact ⟨0, by simpa [scanFirst] using h, fun j hj => absurd hj (Nat.not_lt_zero j)⟩
  | cons c rest ih =>
    intro r h
    simp only [scanFirst] at h
    cases hf : f (c :: rest) with
    | some r0 =>
      rw [hf] at h
      injection h with h1
      subst h1
      exact ⟨0, by simpa using hf, fun j hj => absurd hj (Nat.not_lt_zero j)⟩
    | none =>
      rw [hf] at h
      obtain ⟨i, hi, hmin⟩ := ih h
      refine ⟨i + 1, by simpa using hi, ?_⟩
      intro j hj
      cases j with
      | zero => simpa using hf
      | succ j' => simpa using hmin j' (Nat.lt_of_succ_lt_succ hj)

lemma scanFirst_some (f : List Char → Option (List Char)) {l r : List Char}
    (h : scanFirst f l = some r) : ∃ i : Nat, f (l.drop i) = some r := by
  obtain ⟨i, hi, _⟩ := scanFirst_some_first f h
  exact ⟨i, hi⟩

lemma dropWhile_eq_drop (p : Char → Bool) :
    ∀ l : List Char, ∃ n : Nat, l.dropWhile p = l.drop n := by
  intro l
  induction l with
  | nil => exact ⟨0, rfl⟩
  | cons c rest ih =>
    by_cases hc : p c = true
    · obtain ⟨n, hn⟩ := ih
      exact ⟨n + 1, by simpa [List.dropWhile, hc] using hn⟩
    · simp only [Bool.not_eq_true] at hc
      exact ⟨0, by simp [List.dropWhile, hc]⟩

lemma takeWhile_pre (p : Char → Bool) (l : List Char) :
    l.takeWhile p <+: l :=
  ⟨l.dropWhile p, List.takeWhile_append_dropWhile p l⟩

lemma splitAtBrace?_pre : ∀ {l c : List Char},
    splitAtBrace? l = some c → c <+: l := by
  intro l
  induction l with
  | nil => intro c h; exact absurd h (by simp [splitAtBrace?])
  | cons a rest ih =>
    intro c h
    by_cases ha : a = '}'
    · rw [show splitAtBrace? (a :: rest) = some [] from by simp [splitAtBrace?, ha]] at h
      injection h with h1
      subst h1
      exact ⟨a :: rest, rfl⟩
    · rw [show splitAtBrace? (a :: rest) = (splitAtBrace? rest).map (fun t => a :: t) from by
        simp [splitAtBrace?, ha]] at h
      rw [Option.map_eq_some'] at h
      obtain ⟨t, ht, hc⟩ := h
      subst hc
      obtain ⟨u, hu⟩ := ih ht
      exact ⟨u, by simp [hu]⟩

/-! ### Brace-scan lemmas -/

lemma netDepth_nil : netDepth [] = 0 := rfl

lemma netDepth_cons (c : Char) (l : List Char) :
    netDepth (c :: l) = charDelta c + netDepth l := rfl

lemma netDepth_take_succ_cons (c : Char) (l : List Char) (k : Nat) :
    netDepth ((c :: l).take (k + 1)) = charDelta c + netDepth (l.take k) := by
  rw [List.take_succ_cons, netDepth_cons]

lemma charDelta_other {c : Char} (h1 : ¬ c = '{') (h2 : ¬ c = '}') :
    charDelta c = 0 := by
  simp [charDelta, h1, h2]

lemma braceScan_cons_other {c : Char} (tl : List Char) (cnt i : Int)
    (h1 : ¬ c = '{') (h2 : ¬ c = '}') :
    braceScan (c :: tl) cnt i = braceScan tl cnt (i + 1) := by
  simp [braceScan, h1, h2]

lemma braceScan_cons_close_stop (tl : List Char) (cnt i : Int) (h3 : cnt - 1 = 0) :
    braceScan ('}' :: tl) cnt i = some i := by
  simp [braceScan, h3]

lemma braceScan_cons_close_go (tl : List Char) (cnt i : Int) (h3 : ¬ cnt - 1 = 0) :
    braceScan ('}' :: tl) cnt i = braceScan tl (cnt - 1) (i + 1) := by
  simp [braceScan, h3]

lemma braceScan_some_pos (l : List Char) : ∀ (c i e : Int), 0 < c →
    braceScan l c i = some e →
    ∃ k : Nat, e = i + k ∧ k < l.length ∧ c + netDepth (l.take (k + 1)) = 0 ∧
      ∀ m : Nat, m ≤ k → 0 < c + netDepth (l.take m) := by
  induction l with
  | nil =>
    intro c i e _ h
    exact absurd h (by simp [braceScan])
  | cons ch tl ih =>
    intro c i e hc h
    by_cases h1 : ch = '{'
    · subst h1
      rw [show braceScan ('{' :: tl) c i = braceScan tl (c + 1) (i + 1) from rfl] at h
      obtain ⟨k, hk1, hk2, hk3, hk4⟩ := ih (c + 1) (i + 1) e (by omega) h
      refine ⟨k + 1, by omega, by simp only [List.length_cons]; omega, ?_, ?_⟩
      · rw [netDepth_take_succ_cons]
        rw [show charDelta '{' = 1 from rfl]
        omega
      · intro m hm
        cases m with
        | zero =>
          simp only [List.take_zero, netDepth_nil]
          omega
        | succ m' =>
          rw [netDepth_take_succ_cons]
          rw [show charDelta '{' = 1 from rfl]
          have := hk4 m' (by omega)
          omega
    · by_cases h2 : ch = '}'
      · subst h2
        by_cases h3 : c - 1 = 0
        · rw [braceScan_cons_close_stop tl c i h3] at h
          injection h with h4
          subst h4
          refine ⟨0, by omega, by simp only [List.length_cons]; omega, ?_, ?_⟩
          · rw [netDepth_take_succ_cons]
            rw [show charDelta '}' = -1 from rfl]
            simp only [List.take_zero, netDepth_nil]
            omega
          · intro m hm
            interval_cases m
            simp only [List.take_zero, netDepth_nil]
            omega
        · rw [braceScan_cons_close_go tl c i h3] at h
          obtain ⟨k, hk1, hk2, hk3, hk4⟩ := ih (c - 1) (i + 1) e (by omega) h
          refine ⟨k + 1, by omega, by simp only [List.length_cons]; omega, ?_, ?_⟩
          · rw [netDepth_take_succ_cons]
            rw [show charDelta '}' = -1 from rfl]
            omega
          · intro m hm
            cases m with
            | zero =>
              simp only [List.take_zero, netDepth_nil]
              omega
            | succ m' =>
              rw [netDepth_take_succ_cons]
              rw [show charDelta '}' = -1 from rfl]
              have := hk4 m' (by omega)
              omega
      · rw [braceScan_cons_other tl c i h1 h2] at h
        obtain ⟨k, hk1, hk2, hk3, hk4⟩ := ih c (i + 1) e hc h
        refine ⟨k + 1, by omega, by simp only [List.length_cons]; omega, ?_, ?_⟩
        · rw [netDepth_take_succ_cons, charDelta_other h1 h2]
          omega
        · intro m hm
          cases m with
          | zero =>
            simp only [List.take_zero, netDepth_nil]
            omega
          | succ m' =>
            rw [netDepth_take_succ_cons, charDelta_other h1 h2]
            have := hk4 m' (by omega)
            omega

lemma braceScan_none_iff (l : List Char) : ∀ (c i : Int),
    braceScan l c i = none ↔
    ∀ k : Nat, k < l.length →
      ¬ (l[k]? = some '}' ∧ c + netDepth (l.take (k + 1)) = 0) := by
  induction l with
  | nil =>
    intro c i
    constructor
    · intro _ k hk; exact absurd hk (by simp)
    · intro _; simp [braceScan]
  | cons ch tl ih =>
    intro c i
    by_cases h1 : ch = '{'
    · subst h1
      rw [show braceScan ('{' :: tl) c i = braceScan tl (c + 1) (i + 1) from rfl]
      rw [ih (c + 1) (i + 1)]
      constructor
      · intro hall k hk
        cases k with
        | zero =>
          rintro ⟨hget, _⟩
          rw [List.getElem?_cons_zero] at hget
          injection hget with hch
          exact absurd hch (by decide)
        | succ k' =>
          rintro ⟨hget, hdep⟩
          rw [List.getElem?_cons_succ] at hget
          rw [netDepth_take_succ_cons, show charDelta '{' = 1 from rfl] at hdep
          refine hall k' ?_ ⟨hget, by omega⟩
          simp only [List.length_cons] at hk
          omega
      · intro hall k hk
        rintro ⟨hget, hdep⟩
        refine hall (k + 1) (by simp only [List.length_cons]; omega) ?_
        refine ⟨by simpa using hget, ?_⟩
        rw [netDepth_take_succ_cons, show charDelta '{' = 1 from rfl]
        omega
    · by_cases h2 : ch = '}'
      · subst h2
        by_cases h3 : c - 1 = 0
        · rw [braceScan_cons_close_stop tl c i h3]
          constructor
          · intro hc; exact absurd hc (by simp)
          · intro hall
            refine absurd (hall 0 (by simp only [List.length_cons]; omega)) ?_
            simp only [not_not]
            refine ⟨by simp, ?_⟩
            rw [netDepth_take_succ_cons, show charDelta '}' = -1 from rfl]
            simp only [List.take_zero, netDepth_nil]
            omega
        · rw [braceScan_cons_close_go tl c i h3]
          rw [ih (c - 1) (i + 1)]
          constructor
          · intro hall k hk
            cases k with
            | zero =>
              rintro ⟨_, hdep⟩
              rw [netDepth_take_succ_cons, show charDelta '}' = -1 from rfl] at hdep
              simp only [List.take_zero, netDepth_nil] at hdep
              omega
            | succ k' =>
              rintro ⟨hget, hdep⟩
              rw [List.getElem?_cons_succ] at hget
              rw [netDepth_take_succ_cons, show charDelta '}' = -1 from rfl] at hdep
              refine hall k' ?_ ⟨hget, by omega⟩
              simp only [List.length_cons] at hk
              omega
          · intro hall k hk
            rintro ⟨hget, hdep⟩
            refine hall (k + 1) (by simp only [List.length_cons]; omega) ?_
            refine ⟨by simpa using hget, ?_⟩
            rw [netDepth_take_succ_cons, show charDelta '}' = -1 from rfl]
            omega
      · rw [braceScan_cons_other tl c i h1 h2]
        rw [ih c (i + 1)]
        constructor
        · intro hall k hk
          cases k with
          | zero =>
            rintro ⟨hget, _⟩
            rw [List.getElem?_cons_zero] at hget
            injection hget with hch
            exact h2 hch
          | succ k' =>
            rintro ⟨hget, hdep⟩
            rw [List.getElem?_cons_succ] at hget
            rw [netDepth_take_succ_cons, charDelta_other h1 h2] at hdep
            refine hall k' ?_ ⟨hget, by omega⟩
            simp only [List.length_cons] at hk
            omega
        · intro hall k hk
          rintro ⟨hget, hdep⟩
          refine hall (k + 1) (by simp only [List.length_cons]; omega) ?_
          refine ⟨by simpa using hget, ?_⟩
          rw [netDepth_take_succ_cons, charDelta_other h1 h2]
          omega

lemma findCharFrom_some {c : Char} {l : List Char} {s st : Nat}
    (h : findCharFrom c l s = some st) :
    s ≤ st ∧ ∃ t, l.drop st = c :: t := by
  rw [findCharFrom, Option.map_eq_some'] at h
  obtain ⟨n, hn, hst⟩ := h
  subst hst
  refine ⟨Nat.le_add_left s n, ?_⟩
  have := findSub_some hn
  rw [List.drop_drop] at this
  obtain ⟨t, ht⟩ := this
  refine ⟨t, ?_⟩
  rw [Nat.add_comm n s]
  exact ht.symm

lemma occursIn_iff_findSub (pat l : List Char) :
    occursIn pat l ↔ findSub pat l ≠ none := by
  rw [Ne, findSub_none_iff]
  constructor
  · rintro ⟨i, hi⟩ hall
    exact hall i hi
  · intro h
    by_contra hno
    exact h (fun i hi => hno ⟨i, hi⟩)

/-! ### Claim C6 -/

/-- Claim C6 (amended): when a `{` occurs at or after the first occurrence of
the quoted identifier and the brace-counting scan from it returns to zero
at Python index `e`, `isolate` succeeds returning `raw[ki:e+1]` (the
substring starting at the occurrence), and the suffix of that substring
beginning at the `{` — `raw[st:e+1]` — has net brace depth zero, the depth
being strictly positive at every proper non-empty prefix (so it returns to
zero only at its final character).  The original claim asserted balance of
the whole returned substring, which is refuted by
`c6_counterexample`. -/
theorem c6_isolate_balanced_region (raw id : List Char) (ki st : Nat) (e : Int)
    (hfind : findSub (quotedPat id) raw = some ki)
    (hchar : findCharFrom '{' raw ki = some st)
    (hscan : braceScan (raw.drop st) 0 (st : Int) = some e) :
    isolate raw id = .ok (slice raw ki (e.toNat + 1)) ∧
    netDepth (slice raw st (e.toNat + 1)) = 0 ∧
    ∀ m : Nat, 0 < m → m < (slice raw st (e.toNat + 1)).length →
      0 < netDepth ((slice raw st (e.toNat + 1)).take m) := by
  obtain ⟨hle, t, ht⟩ := findCharFrom_some hchar
  have hscan' : braceScan t 1 ((st : Int) + 1) = some e := by
    rw [ht] at hscan
    rw [show braceScan ('{' :: t) 0 (st : Int) = braceScan t 1 ((st : Int) + 1) from by
      simp [braceScan]] at hscan
    exact hscan
  obtain ⟨k, hk1, hk2, hk3, hk4⟩ :=
    braceScan_some_pos t 1 ((st : Int) + 1) e (by norm_num) hscan'
  have he : e.toNat = st + 1 + k := by omega
  have hreg : slice raw st (e.toNat + 1) = '{' :: t.take (k + 1) := by
    rw [slice, List.drop_take, ht, he]
    rw [show st + 1 + k + 1 - st = k + 2 from by omega]
    rw [List.take_succ_cons]
  have hlen : (t.take (k + 1)).length = k + 1 := by
    rw [List.length_take]
    omega
  refine ⟨?_, ?_, ?_⟩
  · simp only [isolate, hfind]
    have hvis : visitedChars raw ki = raw.drop st := by
      simp [visitedChars, hchar]
    have hstart : startIdxOf raw ki = (st : Int) := by
      simp [startIdxOf, hchar]
    rw [hvis, hstart, hscan]
  · rw [hreg, netDepth_cons, show charDelta '{' = 1 from rfl]
    omega
  · intro m hm0 hmlen
    rw [hreg] at hmlen ⊢
    cases m with
    | zero => exact absurd hm0 (by omega)
    | succ m' =>
      rw [List.take_succ_cons, netDepth_cons, show charDelta '{' = 1 from rfl]
      rw [List.take_take]
      simp only [List.length_cons, hlen] at hmlen
      rw [show min m' (k + 1) = m' from by omega]
      have := hk4 m' (by omega)
      omega

/-- Claim C6 (counterexample): on `raw = "7"}x{}` with identifier `7`,
`isolate` succeeds and returns the whole string, whose net brace depth is
`-1` — the returned substring is not brace-balanced, because the region
between the identifier and the first `{` contains an unmatched `}` that
the brace-counting loop never sees. -/
theorem c6_counterexample :
    isolate ['"', '7', '"', '}', 'x', '{', '}'] ['7'] =
      .ok ['"', '7', '"', '}', 'x', '{', '}'] ∧
    netDepth ['"', '7', '"', '}', 'x', '{', '}'] = -1 := by
  constructor
  · rfl
  · decide

/-- Witness for `c6_isolate_balanced_region` at `raw = "7"{}`, id `7`:
`ki = 0`, the first `{` is at index 3, the scan stops at index 4. -/
theorem c6_witness :
    isolate ['"', '7', '"', '{', '}'] ['7'] =
      .ok (slice ['"', '7', '"', '{', '}'] 0 5) ∧
    netDepth (slice ['"', '7', '"', '{', '}'] 3 5) = 0 ∧
    ∀ m : Nat, 0 < m → m < (slice ['"', '7', '"', '{', '}'] 3 5).length →
      0 < netDepth ((slice ['"', '7', '"', '{', '}'] 3 5).take m) :=
  c6_isolate_balanced_region ['"', '7', '"', '{', '}'] ['7'] 0 3 4 rfl rfl rfl

/-! ### Claim C7 -/

/-- Claim C7 (confirmed): `isolate` fails with `RecordNotFoundError` exactly
when the quoted identifier does not occur literally in the text; it fails
with `UnbalancedDelimiterError` exactly when the identifier occurs but the
brace-depth counter never returns to zero over the characters the loop
scans (no `}` position where the running depth reaches zero); and these
are its only failure modes. -/
theorem c7_isolate_failure_modes (raw id : List Char) :
    (isolate raw id = .error .recordNotFound ↔
      ¬ occursIn (quotedPat id) raw) ∧
    (isolate raw id = .error .unbalanced ↔
      (occursIn (quotedPat id) raw ∧
        ∀ k : Nat, k < (visitedOf raw id).length →
          ¬ ((visitedOf raw id)[k]? = some '}' ∧
             netDepth ((visitedOf raw id).take (k + 1)) = 0))) ∧
    (∀ e : IsoErr, isolate raw id = .error e →
      e = .recordNotFound ∨ e = .unbalanced) := by
  cases hf : findSub (quotedPat id) raw with
  | none =>
    have hiso : isolate raw id = .error .recordNotFound := by
      simp [isolate, hf]
    have hocc : ¬ occursIn (quotedPat id) raw := by
      rw [occursIn_iff_findSub]
      simp [hf]
    refine ⟨by simp [hiso, hocc], ?_, ?_⟩
    · rw [hiso]
      constructor
      · intro hc
        exact absurd (congrArg (fun x => x = Except.error IsoErr.unbalanced) hc)
          (by simp)
      · rintro ⟨ho, _⟩
        exact absurd ho hocc
    · intro e he
      rw [hiso] at he
      injection he with h1
      exact Or.inl h1.symm
  | some ki =>
    have hocc : occursIn (quotedPat id) raw := by
      rw [occursIn_iff_findSub]
      simp [hf]
    have hvis : visitedOf raw id = visitedChars raw ki := by
      simp [visitedOf, hf]
    cases hb : braceScan (visitedChars raw ki) 0 (startIdxOf raw ki) with
    | none =>
      have hiso : isolate raw id = .error .unbalanced := by
        simp [isolate, hf, hb]
      refine ⟨?_, ?_, ?_⟩
      · rw [hiso]
        constructor
        · intro hc
          exact absurd (congrArg (fun x => x = Except.error IsoErr.recordNotFound) hc)
            (by simp)
        · intro hno
          exact absurd hocc hno
      · rw [hiso, hvis]
        simp only [true_iff, hocc, true_and]
        intro k hk
        have := (braceScan_none_iff (visitedChars raw ki) 0 (startIdxOf raw ki)).mp hb k hk
        simpa using this
      · intro e he
        rw [hiso] at he
        injection he with h1
        exact Or.inr h1.symm
    | some e =>
      have hiso : isolate raw id = .ok (slice raw ki (e.toNat + 1)) := by
        simp [isolate, hf, hb]
      refine ⟨?_, ?_, ?_⟩
      · rw [hiso]
        constructor
        · intro hc
          exact absurd hc (by simp)
        · intro hno
          exact absurd hocc hno
      · rw [hiso, hvis]
        constructor
        · intro hc
          exact absurd hc (by simp)
        · rintro ⟨_, hall⟩
          have := (braceScan_none_iff (visitedChars raw ki) 0 (startIdxOf raw ki)).mpr
            (fun k hk => by simpa using hall k hk)
          rw [hb] at this
          exact absurd this (by simp)
      · intro e' he'
        rw [hiso] at he'
        exact absurd he' (by simp)

/-- Witness for `c7_isolate_failure_modes` at `raw = "9"{{}`, id `9`
(identifier occurs, scan never returns to zero). -/
theorem c7_witness :
    (isolate ['"', '9', '"', '{', '{', '}'] ['9'] = .error .recordNotFound ↔
      ¬ occursIn (quotedPat ['9']) ['"', '9', '"', '{', '{', '}']) ∧
    (isolate ['"', '9', '"', '{', '{', '}'] ['9'] = .error .unbalanced ↔
      (occursIn (quotedPat ['9']) ['"', '9', '"', '{', '{', '}'] ∧
        ∀ k : Nat, k < (visitedOf ['"', '9', '"', '{', '{', '}'] ['9']).length →
          ¬ ((visitedOf ['"', '9', '"', '{', '{', '}'] ['9'])[k]? = some '}' ∧
             netDepth ((visitedOf ['"', '9', '"', '{', '{', '}'] ['9']).take (k + 1)) = 0))) ∧
    (∀ e : IsoErr, isolate ['"', '9', '"', '{', '{', '}'] ['9'] = .error e →
      e = .recordNotFound ∨ e = .unbalanced) :=
  c7_isolate_failure_modes ['"', '9', '"', '{', '{', '}'] ['9']

/-! ### Key-resolver lemmas -/

lemma keyValAt_some {rest2 k : List Char} (h : keyValAt rest2 = some k) :
    k = rest2.takeWhile (fun a => ! (a == '"')) ∧ k ≠ [] := by
  rw [keyValAt] at h
  by_cases hv : rest2.takeWhile (fun a => ! (a == '"')) = []
  · rw [if_pos hv] at h
    exact absurd h (by simp)
  · rw [if_neg hv] at h
    cases hh : (rest2.drop (rest2.takeWhile (fun a => ! (a == '"'))).length).head? with
    | none =>
      simp only [hh] at h
      exact absurd h (by simp)
    | some c2 =>
      simp only [hh] at h
      by_cases hc2 : c2 = '"'
      · rw [if_pos hc2] at h
        injection h with h1
        exact ⟨h1.symm, h1 ▸ hv⟩
      · rw [if_neg hc2] at h
        exact absurd h (by simp)

lemma matchKeyAt_some {l k : List Char} (h : matchKeyAt l = some k) :
    k ≠ [] ∧ occursIn k l := by
  rw [matchKeyAt] at h
  by_cases hp : dkPattern.isPrefixOf l = true
  · rw [if_pos hp] at h
    cases hdw : (l.drop dkPattern.length).dropWhile isWs with
    | nil =>
      simp only [hdw] at h
      exact absurd h (by simp)
    | cons c rest2 =>
      simp only [hdw] at h
      by_cases hc : c = '"'
      · rw [if_pos hc] at h
        obtain ⟨hk, hne⟩ := keyValAt_some h
        refine ⟨hne, ?_⟩
        obtain ⟨n, hn⟩ := dropWhile_eq_drop isWs (l.drop dkPattern.length)
        have hrest : rest2 = l.drop (dkPattern.length + n + 1) := by
          have h1 : c :: rest2 = l.drop (dkPattern.length + n) := by
            rw [← hdw, hn, List.drop_drop]
          have h2 := congrArg (List.drop 1) h1
          simpa [List.drop_drop, Nat.add_comm] using h2
        refine ⟨dkPattern.length + n + 1, ?_⟩
        rw [← hrest, hk]
        exact takeWhile_pre _ _
      · rw [if_neg hc] at h
        exact absurd h (by simp)
  · rw [if_neg hp] at h
    exact absurd h (by simp)

lemma matchBlockAt_some {did l content : List Char}
    (h : matchBlockAt did l = some content) : occursIn content l := by
  rw [matchBlockAt] at h
  by_cases hp : (quotedPat did).isPrefixOf l = true
  · rw [if_pos hp] at h
    cases hdw : (l.drop (quotedPat did).length).dropWhile isWs with
    | nil =>
      simp only [hdw] at h
      exact absurd h (by simp)
    | cons c rest2 =>
      simp only [hdw] at h
      by_cases hc : c = '{'
      · rw [if_pos hc] at h
        obtain ⟨n, hn⟩ := dropWhile_eq_drop isWs (l.drop (quotedPat did).length)
        have hrest : rest2 = l.drop ((quotedPat did).length + n + 1) := by
          have h1 : c :: rest2 = l.drop ((quotedPat did).length + n) := by
            rw [← hdw, hn, List.drop_drop]
          have h2 := congrArg (List.drop 1) h1
          simpa [List.drop_drop, Nat.add_comm] using h2
        refine ⟨(quotedPat did).length + n + 1, ?_⟩
        rw [← hrest]
        exact splitAtBrace?_pre h
      · rw [if_neg hc] at h
        exact absurd h (by simp)
  · rw [if_neg hp] at h
    exact absurd h (by simp)

lemma find_decryption_key_ok {cfg did k : List Char}
    (h : find_decryption_key cfg did = .ok k) : k ≠ [] ∧ occursIn k cfg := by
  rw [find_decryption_key] at h
  cases hdb : depotBlock cfg did with
  | none =>
    simp only [hdb] at h
    exact absurd h (by simp)
  | some content =>
    simp only [hdb] at h
    cases hsk : scanFirst matchKeyAt content with
    | none =>
      simp only [hsk] at h
      exact absurd h (by simp)
    | some k0 =>
      simp only [hsk] at h
      injection h with h1
      subst h1
      obtain ⟨i, hi⟩ := scanFirst_some matchKeyAt hsk
      obtain ⟨hne, hocc⟩ := matchKeyAt_some hi
      obtain ⟨j, hj⟩ := scanFirst_some (matchBlockAt did) hdb
      exact ⟨hne, occursIn_mono (occursIn_drop hocc) (occursIn_drop (matchBlockAt_some hj))⟩

/-! ### Claim C4 -/

/-- Claim C4 (amended): `find_decryption_key` fails with
`DepotBlockNotFoundError` exactly when no position of the trust-store text
matches `"<did>"\s*\{(.*?)\}`; it fails with `KeyNotFoundError` exactly
when the first (leftmost, lazily-delimited) such block's content matches
`"DecryptionKey"\s*"([^"]+)"` at no position — in particular a
`DecryptionKey` entry whose quoted value is empty does NOT count, which
corrects the original claim (see `c4_counterexample`); on success it
returns the value captured at the leftmost match inside that block. -/
theorem c4_resolver_characterization (cfg did : List Char) :
    (find_decryption_key cfg did = .error .depotBlockNotFound ↔
      ∀ i : Nat, matchBlockAt did (cfg.drop i) = none) ∧
    (find_decryption_key cfg did = .error .keyNotFound ↔
      ∃ content, depotBlock cfg did = some content ∧
        ∀ i : Nat, matchKeyAt (content.drop i) = none) ∧
    (∀ k, find_decryption_key cfg did = .ok k →
      ∃ content, depotBlock cfg did = some content ∧
        ∃ i : Nat, matchKeyAt (content.drop i) = some k ∧
          ∀ j : Nat, j < i → matchKeyAt (content.drop j) = none) := by
  cases hdb : depotBlock cfg did with
  | none =>
    have hfd : find_decryption_key cfg did = .error .depotBlockNotFound := by
      simp [find_decryption_key, hdb]
    refine ⟨?_, ?_, ?_⟩
    · rw [hfd]
      simp only [true_iff]
      exact (scanFirst_none_iff (matchBlockAt did) cfg).mp hdb
    · rw [hfd]
      constructor
      · intro hc
        exact absurd hc (by simp)
      · rintro ⟨content, hcon, _⟩
        exact absurd hcon (by simp)
    · intro k hk
      rw [hfd] at hk
      exact absurd hk (by simp)
  | some content =>
    have hnb : ¬ ∀ i : Nat, matchBlockAt did (cfg.drop i) = none := by
      intro hall
      have := (scanFirst_none_iff (matchBlockAt did) cfg).mpr hall
      rw [depotBlock] at hdb
      rw [this] at hdb
      exact absurd hdb (by simp)
    cases hsk : scanFirst matchKeyAt content with
    | none =>
      have hfd : find_decryption_key cfg did = .error .keyNotFound := by
        simp [find_decryption_key, hdb, hsk]
      refine ⟨?_, ?_, ?_⟩
      · rw [hfd]
        constructor
        · intro hc
          exact absurd hc (by simp)
        · intro hall
          exact absurd hall hnb
      · rw [hfd]
        simp only [true_iff]
        exact ⟨content, rfl, (scanFirst_none_iff matchKeyAt content).mp hsk⟩
      · intro k hk
        rw [hfd] at hk
        exact absurd hk (by simp)
    | some k0 =>
      have hfd : find_decryption_key cfg did = .ok k0 := by
        simp [find_decryption_key, hdb, hsk]
      refine ⟨?_, ?_, ?_⟩
      · rw [hfd]
        constructor
        · intro hc
          exact absurd hc (by simp)
        · intro hall
          exact absurd hall hnb
      · rw [hfd]
        constructor
        · intro hc
          exact absurd hc (by simp)
        · rintro ⟨content', hcon, hall⟩
          injection hcon with hcc
          subst hcc
          have := (scanFirst_none_iff matchKeyAt content).mpr hall
          rw [this] at hsk
          exact absurd hsk (by simp)
      · intro k hk
        rw [hfd] at hk
        injection hk with h1
        subst h1
        exact ⟨content, rfl, scanFirst_some_first matchKeyAt hsk⟩

/-- Claim C4 (counterexample): in the trust-store text
`"1" { "DecryptionKey" "" }` the block for depot `1` does contain a
`DecryptionKey` entry (with an empty quoted value), yet the resolver
raises `KeyNotFoundError`, because the `[^"]+` value pattern requires a
non-empty value. -/
theorem c4_counterexample :
    find_decryption_key
        ['"', '1', '"', ' ', '{', ' ', '"', 'D', 'e', 'c', 'r', 'y', 'p', 't',
         'i', 'o', 'n', 'K', 'e', 'y', '"', ' ', '"', '"', ' ', '}'] ['1'] =
      .error .keyNotFound ∧
    depotBlock
        ['"', '1', '"', ' ', '{', ' ', '"', 'D', 'e', 'c', 'r', 'y', 'p', 't',
         'i', 'o', 'n', 'K', 'e', 'y', '"', ' ', '"', '"', ' ', '}'] ['1'] =
      some [' ', '"', 'D', 'e', 'c', 'r', 'y', 'p', 't', 'i', 'o', 'n', 'K',
            'e', 'y', '"', ' ', '"', '"', ' '] ∧
    containsSubB
        [' ', '"', 'D', 'e', 'c', 'r', 'y', 'p', 't', 'i', 'o', 'n', 'K',
         'e', 'y', '"', ' ', '"', '"', ' ']
        ['"', 'D', 'e', 'c', 'r', 'y', 'p', 't', 'i', 'o', 'n', 'K', 'e', 'y',
         '"', ' ', '"', '"'] = true := by
  refine ⟨rfl, rfl, ?_⟩
  decide

/-- Witness for `c4_resolver_characterization` on a store holding a
non-empty key for depot `1`. -/
theorem c4_witness :
    (find_decryption_key (("\x221\x22 \x7b \x22DecryptionKey\x22 \x22K\x22 \x7d").toList)
        ['1'] = .error .depotBlockNotFound ↔
      ∀ i : Nat,
        matchBlockAt ['1'] ((("\x221\x22 \x7b \x22DecryptionKey\x22 \x22K\x22 \x7d").toList).drop i) =
          none) ∧
    (find_decryption_key (("\x221\x22 \x7b \x22DecryptionKey\x22 \x22K\x22 \x7d").toList)
        ['1'] = .error .keyNotFound ↔
      ∃ content,
        depotBlock (("\x221\x22 \x7b \x22DecryptionKey\x22 \x22K\x22 \x7d").toList) ['1'] =
          some content ∧
        ∀ i : Nat, matchKeyAt (content.drop i) = none) ∧
    (∀ k,
      find_decryption_key (("\x221\x22 \x7b \x22DecryptionKey\x22 \x22K\x22 \x7d").toList)
          ['1'] = .ok k →
      ∃ content,
        depotBlock (("\x221\x22 \x7b \x22DecryptionKey\x22 \x22K\x22 \x7d").toList) ['1'] =
          some content ∧
        ∃ i : Nat, matchKeyAt (content.drop i) = some k ∧
          ∀ j : Nat, j < i → matchKeyAt (content.drop j) = none) :=
  c4_resolver_characterization
    (("\x221\x22 \x7b \x22DecryptionKey\x22 \x22K\x22 \x7d").toList) ['1']

/-! ### Policy-filter lemmas -/

lemma filter_keys_mem_ok {cfg : List Char} :
    ∀ {ds : List (String × String)} {d : String} {k : List Char},
    (d, k) ∈ (filter_depots cfg ds).2 →
    find_decryption_key cfg d.toList = .ok k := by
  intro ds
  induction ds with
  | nil =>
    intro d k h
    exact absurd h (by simp [filter_depots])
  | cons p rest ih =>
    obtain ⟨d0, g0⟩ := p
    intro d k h
    cases hf : find_decryption_key cfg d0.toList with
    | ok k0 =>
      rw [show filter_depots cfg ((d0, g0) :: rest) =
          ((d0, g0) :: (filter_depots cfg rest).1,
           (d0, k0) :: (filter_depots cfg rest).2) from by
        simp only [filter_depots, hf]] at h
      rcases List.mem_cons.mp h with heq | htail
      · injection heq with h1 h2
        subst h1
        subst h2
        exact hf
      · exact ih htail
    | error e =>
      rw [show filter_depots cfg ((d0, g0) :: rest) = filter_depots cfg rest from by
        simp only [filter_depots, hf]] at h
      exact ih h

lemma filter_kept_mem_ok {cfg : List Char} :
    ∀ {ds : List (String × String)} {d g : String},
    (d, g) ∈ (filter_depots cfg ds).1 →
    ∃ k, find_decryption_key cfg d.toList = .ok k := by
  intro ds
  induction ds with
  | nil =>
    intro d g h
    exact absurd h (by simp [filter_depots])
  | cons p rest ih =>
    obtain ⟨d0, g0⟩ := p
    intro d g h
    cases hf : find_decryption_key cfg d0.toList with
    | ok k0 =>
      rw [show filter_depots cfg ((d0, g0) :: rest) =
          ((d0, g0) :: (filter_depots cfg rest).1,
           (d0, k0) :: (filter_depots cfg rest).2) from by
        simp only [filter_depots, hf]] at h
      rcases List.mem_cons.mp h with heq | htail
      · injection heq with h1 h2
        subst h1
        exact ⟨k0, hf⟩
      · exact ih htail
    | error e =>
      rw [show filter_depots cfg ((d0, g0) :: rest) = filter_depots cfg rest from by
        simp only [filter_depots, hf]] at h
      exact ih h

lemma mem_filter_of_ok {cfg : List Char} :
    ∀ {ds : List (String × String)} {d g : String} {k : List Char},
    (d, g) ∈ ds → find_decryption_key cfg d.toList = .ok k →
    (d, g) ∈ (filter_depots cfg ds).1 ∧ (d, k) ∈ (filter_depots cfg ds).2 := by
  intro ds
  induction ds with
  | nil =>
    intro d g k h _
    exact absurd h (by simp)
  | cons p rest ih =>
    obtain ⟨d0, g0⟩ := p
    intro d g k h hok
    rcases List.mem_cons.mp h with heq | htail
    · injection heq with h1 h2
      subst h1
      subst h2
      rw [show filter_depots cfg ((d, g) :: rest) =
          ((d, g) :: (filter_depots cfg rest).1,
           (d, k) :: (filter_depots cfg rest).2) from by
        simp only [filter_depots, hok]]
      exact ⟨List.mem_cons_self _ _, List.mem_cons_self _ _⟩
    · obtain ⟨h1, h2⟩ := ih htail hok
      cases hf : find_decryption_key cfg d0.toList with
      | ok k0 =>
        rw [show filter_depots cfg ((d0, g0) :: rest) =
            ((d0, g0) :: (filter_depots cfg rest).1,
             (d0, k0) :: (filter_depots cfg rest).2) from by
          simp only [filter_depots, hf]]
        exact ⟨List.mem_cons_of_mem _ h1, List.mem_cons_of_mem _ h2⟩
      | error e =>
        rw [show filter_depots cfg ((d0, g0) :: rest) = filter_depots cfg rest from by
          simp only [filter_depots, hf]]
        exact ⟨h1, h2⟩

lemma filter_coverage {cfg : List Char} :
    ∀ {ds : List (String × String)} {p : String × String},
    p ∈ (filter_depots cfg ds).1 →
    (alookup (filter_depots cfg ds).2 p.1).isSome = true := by
  intro ds
  induction ds with
  | nil =>
    intro p h
    exact absurd h (by simp [filter_depots])
  | cons q rest ih =>
    obtain ⟨d0, g0⟩ := q
    intro p h
    cases hf : find_decryption_key cfg d0.toList with
    | ok k0 =>
      rw [show filter_depots cfg ((d0, g0) :: rest) =
          ((d0, g0) :: (filter_depots cfg rest).1,
           (d0, k0) :: (filter_depots cfg rest).2) from by
        simp only [filter_depots, hf]] at h ⊢
      by_cases hd : d0 = p.1
      · simp [alookup, hd]
      · rcases List.mem_cons.mp h with heq | htail
        · exact absurd (congrArg Prod.fst heq.symm) hd
        · simp only [alookup, hd, if_false]
          exact ih htail
    | error e =>
      rw [show filter_depots cfg ((d0, g0) :: rest) = filter_depots cfg rest from by
        simp only [filter_depots, hf]] at h ⊢
      exact ih h

lemma regLines_covered (keys : List (String × List Char)) :
    ∀ depots : List (String × String),
    (∀ p ∈ depots, (alookup keys p.1).isSome = true) →
    ∃ t, regLines keys depots = some t := by
  intro depots
  induction depots with
  | nil => exact fun _ => ⟨[], rfl⟩
  | cons p rest ih =>
    obtain ⟨d0, g0⟩ := p
    intro hcov
    obtain ⟨k0, hk0⟩ := Option.isSome_iff_exists.mp (hcov (d0, g0) (List.mem_cons_self _ _))
    obtain ⟨t, ht⟩ := ih (fun q hq => hcov q (List.mem_cons_of_mem _ hq))
    exact ⟨regLine d0 k0 ++ t, by simp [regLines, hk0, ht]⟩

lemma write_lua_filter_some (appid : String) (cfg : List Char)
    (ds : List (String × String)) :
    ∃ t, write_lua appid (filter_depots cfg ds).1 (filter_depots cfg ds).2 = some t := by
  obtain ⟨t, ht⟩ := regLines_covered (filter_depots cfg ds).2 (filter_depots cfg ds).1
    (fun p hp => filter_coverage hp)
  exact ⟨appLine appid ++ t ++ manLines (filter_depots cfg ds).1, by
    simp [write_lua, ht]⟩

/-! ### Claim C1 -/

/-- Claim C1 (amended): when key resolution fails for a candidate depot —
whatever the error kind, and regardless of any add-on or
language-restriction marker — the depot is silently removed from the
final mapping and the run continues to produce output.  There is no
`MissingMainlineKeyError` in the code: the original claim's hard-failure
path does not exist (see `c1_counterexample`). -/
theorem c1_missing_key_drops_silently (appid : String) (ai : Node) (cfg : List Char)
    (ds : List (String × String)) (d g : String) (e : KeyErr)
    (hex : extract_depots ai = .ok ds) (hmem : (d, g) ∈ ds)
    (hfail : find_decryption_key cfg d.toList = .error e) :
    (d, g) ∉ (filter_depots cfg ds).1 ∧
    ∃ t, run_core appid ai cfg = .ok (some t) := by
  constructor
  · intro hc
    obtain ⟨k, hk⟩ := filter_kept_mem_ok hc
    rw [hfail] at hk
    exact absurd hk (by simp)
  · obtain ⟨t, ht⟩ := write_lua_filter_some appid cfg ds
    exact ⟨t, by simp [run_core, hex, Except.map, ht]⟩

/-- Claim C1 (counterexample): depot `3003` is mainline (no `dlcappid`, no
`config.language`), its key resolution against an empty trust store fails,
yet the run does not abort: it emits one output line `addappid(42)`.
The claim required a `MissingMainlineKeyError` abort with zero output
lines. -/
theorem c1_counterexample :
    depotIsAddOn (Node.map [(manifestsKey, Node.map [(publicKey,
        Node.map [(gidKey, Node.scalar ("555"))])])]) = false ∧
    depotIsLangRestricted (Node.map [(manifestsKey, Node.map [(publicKey,
        Node.map [(gidKey, Node.scalar ("555"))])])]) = false ∧
    find_decryption_key [] (("3003").toList) = .error .depotBlockNotFound ∧
    run_core ("42")
      (Node.map [(depotsKey, Node.map [(("3003"),
        Node.map [(manifestsKey, Node.map [(publicKey,
          Node.map [(gidKey, Node.scalar ("555"))])])])])]) [] =
      .ok (some (("addappid(42)\n").toList)) :=
  ⟨rfl, rfl, rfl, rfl⟩

/-- Witness for `c1_missing_key_drops_silently`: depot `9` with gid `7`,
empty trust store. -/
theorem c1_witness :
    (("9", "7") : String × String) ∉ (filter_depots [] [("9", "7")]).1 ∧
    ∃ t, run_core ("5") (Node.map [(depotsKey, Node.map [(("9"),
      Node.map [(manifestsKey, Node.map [(publicKey,
        Node.map [(gidKey, Node.scalar ("7"))])])])])]) [] = .ok (some t) :=
  c1_missing_key_drops_silently ("5")
    (Node.map [(depotsKey, Node.map [(("9"),
      Node.map [(manifestsKey, Node.map [(publicKey,
        Node.map [(gidKey, Node.scalar ("7"))])])])])])
    [] [("9", "7")] ("9") ("7") .depotBlockNotFound rfl
    (List.mem_singleton.mpr rfl) rfl

/-! ### Claim C2 -/

/-- Claim C2 (amended): the zero-depot hard failure happens at extraction
time — `extract_depots` never returns an empty mapping (it raises
`NoValidDepotsError` instead) — but after the key-resolution filter the
mapping may become empty, and the emitter is still invoked: the run then
succeeds with an output consisting of the application line only.  The
original claim said the run fails hard whenever the post-filter mapping is
empty and that the emitter is never invoked with zero depots (see
`c2_counterexample`). -/
theorem c2_emptiness_checked_at_extraction (appid : String) (ai : Node)
    (cfg : List Char) (ds : List (String × String))
    (hex : extract_depots ai = .ok ds) :
    ds ≠ [] ∧
    ((filter_depots cfg ds).1 = [] →
      run_core appid ai cfg = .ok (some (appLine appid))) := by
  constructor
  · cases ai with
    | scalar s => exact absurd hex (by simp [extract_depots])
    | map es =>
      rw [extract_depots] at hex
      cases hd : lookupN es depotsKey with
      | none =>
        simp only [hd] at hex
        exact absurd hex (by simp)
      | some nd =>
        cases nd with
        | scalar s =>
          simp only [hd] at hex
          exact absurd hex (by simp)
        | map dm =>
          simp only [hd] at hex
          cases hl : extractLoop dm with
          | error e =>
            simp only [hl] at hex
            exact absurd hex (by simp)
          | ok r =>
            simp only [hl] at hex
            by_cases hr : r = []
            · rw [if_pos hr] at hex
              exact absurd hex (by simp)
            · rw [if_neg hr] at hex
              injection hex with h1
              exact h1 ▸ hr
  · intro hk
    have hrun : run_core appid ai cfg =
        .ok (write_lua appid (filter_depots cfg ds).1 (filter_depots cfg ds).2) := by
      simp [run_core, hex, Except.map]
    rw [hrun, hk]
    simp [write_lua, regLines, manLines]

/-- Claim C2 (counterexample): with one extracted depot `9009` whose key is
missing from the trust store, the post-filter mapping is empty, yet the
emitter is invoked and the run succeeds with the single line
`addappid(5)` — no `NoValidDepotsError` is raised after filtering. -/
theorem c2_counterexample :
    (filter_depots [] [("9009", "777")]).1 = [] ∧
    run_core ("5") (Node.map [(depotsKey, Node.map [(("9009"),
      Node.map [(manifestsKey, Node.map [(publicKey,
        Node.map [(gidKey, Node.scalar ("777"))])])])])]) [] =
      .ok (some (("addappid(5)\n").toList)) :=
  ⟨rfl, rfl⟩

/-- Witness for `c2_emptiness_checked_at_extraction`: depot `8`, gid `6`,
empty trust store. -/
theorem c2_witness :
    ([("8", "6")] : List (String × String)) ≠ [] ∧
    ((filter_depots [] [("8", "6")]).1 = [] →
      run_core ("3") (Node.map [(depotsKey, Node.map [(("8"),
        Node.map [(manifestsKey, Node.map [(publicKey,
          Node.map [(gidKey, Node.scalar ("6"))])])])])]) [] =
        .ok (some (appLine ("3")))) :=
  c2_emptiness_checked_at_extraction ("3")
    (Node.map [(depotsKey, Node.map [(("8"),
      Node.map [(manifestsKey, Node.map [(publicKey,
        Node.map [(gidKey, Node.scalar ("6"))])])])])])
    [] [("8", "6")] rfl

/-! ### Claim C8 -/

/-- Claim C8 (confirmed): every key recorded by the policy filter and handed
to the emitter is a non-empty string and occurs verbatim in the local
trust-store text — it is extracted by `find_decryption_key`'s `[^"]+`
capture, never fabricated or defaulted. -/
theorem c8_keys_nonempty_from_store (cfg : List Char) (ds : List (String × String))
    (d : String) (k : List Char)
    (hmem : (d, k) ∈ (filter_depots cfg ds).2) :
    k ≠ [] ∧ occursIn k cfg :=
  find_decryption_key_ok (filter_keys_mem_ok hmem)

/-- Witness for `c8_keys_nonempty_from_store`: store holding key `KEY` for
depot `1`. -/
theorem c8_witness :
    ("KEY").toList ≠ [] ∧
    occursIn (("KEY").toList)
      (("\x221\x22 \x7b \x22DecryptionKey\x22 \x22KEY\x22 \x7d").toList) :=
  c8_keys_nonempty_from_store
    (("\x221\x22 \x7b \x22DecryptionKey\x22 \x22KEY\x22 \x7d").toList)
    [("1", "g")] ("1") (("KEY").toList) (by decide)

/-! ### Claim C10 -/

/-- Claim C10 (confirmed): a candidate depot whose key resolution succeeds is
kept in the final mapping together with its key, even when its add-on
marker (`dlcappid`) or language-restriction marker (`config.language`) is
set: the filter in `main` consults only the resolution outcome, never the
markers. -/
theorem c10_marker_irrelevant_on_success (cfg : List Char)
    (es dm : List (String × Node)) (did : String) (info : Node)
    (ds : List (String × String)) (g : String) (k : List Char)
    (hroot : lookupN es depotsKey = some (Node.map dm))
    (hchild : (did, info) ∈ dm)
    (hmark : depotIsAddOn info = true ∨ depotIsLangRestricted info = true)
    (hex : extract_depots (Node.map es) = .ok ds)
    (hds : (did, g) ∈ ds)
    (hok : find_decryption_key cfg did.toList = .ok k) :
    (did, g) ∈ (filter_depots cfg ds).1 ∧ (did, k) ∈ (filter_depots cfg ds).2 :=
  mem_filter_of_ok hds hok

/-- Witness for `c10_marker_irrelevant_on_success`: depot `1001` carries a
`dlcappid` marker and a resolvable key `ABCDEF`; it is kept. -/
theorem c10_witness :
    ("1001", "555") ∈
      (filter_depots (("\x221001\x22 \x7b \x22DecryptionKey\x22 \x22ABCDEF\x22 \x7d").toList)
        [("1001", "555")]).1 ∧
    ("1001", ("ABCDEF").toList) ∈
      (filter_depots (("\x221001\x22 \x7b \x22DecryptionKey\x22 \x22ABCDEF\x22 \x7d").toList)
        [("1001", "555")]).2 :=
  c10_marker_irrelevant_on_success
    (("\x221001\x22 \x7b \x22DecryptionKey\x22 \x22ABCDEF\x22 \x7d").toList)
    [(depotsKey, Node.map [(("1001"), Node.map [(dlcappidKey, Node.scalar ("10")),
      (manifestsKey, Node.map [(publicKey, Node.map [(gidKey, Node.scalar ("555"))])])])])]
    [(("1001"), Node.map [(dlcappidKey, Node.scalar ("10")),
      (manifestsKey, Node.map [(publicKey, Node.map [(gidKey, Node.scalar ("555"))])])])]
    ("1001")
    (Node.map [(dlcappidKey, Node.scalar ("10")),
      (manifestsKey, Node.map [(publicKey, Node.map [(gidKey, Node.scalar ("555"))])])])
    [("1001", "555")] ("555") (("ABCDEF").toList)
    rfl (List.mem_singleton.mpr rfl) (Or.inl rfl) rfl
    (List.mem_singleton.mpr rfl) rfl

/-! ### Depot-extraction lemmas -/

lemma getManifestsGid_eq {im : List (String × Node)}
    (h : ∀ s, lookupN im manifestsKey ≠ some (Node.scalar s)) :
    getManifestsGid im = .ok (childPasses (Node.map im)) := by
  cases hm : lookupN im manifestsKey with
  | none => simp [getManifestsGid, childPasses, hm]
  | some nd =>
    cases nd with
    | scalar s => exact absurd hm (h s)
    | map mm =>
      simp only [getManifestsGid, childPasses, hm]
      cases hp : lookupN mm publicKey with
      | none => simp [hp]
      | some n2 =>
        cases n2 with
        | scalar s2 => simp [hp]
        | map pm =>
          cases hg : lookupN pm gidKey with
          | none => simp [hp, hg]
          | some n3 =>
            cases n3 with
            | scalar g =>
              by_cases hgg : g = ""
              · simp [hp, hg, hgg]
              · simp [hp, hg, hgg]
            | map mm2 => simp [hp, hg]

lemma extractLoop_eq_passed : ∀ {dm : List (String × Node)},
    noScalarManifestsB dm = true → extractLoop dm = .ok (passedChildren dm) := by
  intro dm
  induction dm with
  | nil => intro _; rfl
  | cons p rest ih =>
    obtain ⟨did, info⟩ := p
    intro hns
    rw [noScalarManifestsB, List.all_cons, Bool.and_eq_true] at hns
    obtain ⟨h1, h2⟩ := hns
    rw [Bool.not_eq_true'] at h1
    have ihr := ih h2
    cases info with
    | scalar s =>
      simp only [extractLoop, ihr]
      simp [passedChildren, List.filterMap_cons, childPasses]
    | map im =>
      have hnm : ∀ s, lookupN im manifestsKey ≠ some (Node.scalar s) := by
        intro s hcon
        rw [show childManifestsScalar (did, Node.map im) = true from by
          simp [childManifestsScalar, hcon]] at h1
        exact absurd h1 (by simp)
      simp only [extractLoop, getManifestsGid_eq hnm]
      cases hcp : childPasses (Node.map im) with
      | none =>
        simp only [ihr]
        simp [passedChildren, List.filterMap_cons, hcp]
      | some g =>
        simp only [ihr]
        simp [passedChildren, List.filterMap_cons, hcp, Except.map]

/-! ### Claim C3 -/

/-- Claim C3 (amended): provided the root has a `depots` map child none of
whose children is a map with a scalar `manifests` entry, `extract_depots`
returns exactly the children passing the `manifests.public.gid`
non-empty-scalar filter (`NoValidDepotsError` when none passes), and it
fails with `NoDepotsError` when the root has no `depots` map child; a
child with a scalar `manifests` entry instead crashes with a Python
`AttributeError` (see `c3_counterexample`), which corrects the original
claim.  Inclusion in the passing set is exactly the claimed filter. -/
theorem c3_extract_characterization :
    (∀ (es dm : List (String × Node)),
      lookupN es depotsKey = some (Node.map dm) →
      noScalarManifestsB dm = true →
      extract_depots (Node.map es) =
        (if passedChildren dm = [] then .error .noValid
         else .ok (passedChildren dm))) ∧
    (∀ es : List (String × Node),
      (∀ dm, lookupN es depotsKey ≠ some (Node.map dm)) →
      extract_depots (Node.map es) = .error .noDepots) ∧
    (∀ (dm : List (String × Node)) (did g : String),
      ((did, g) ∈ passedChildren dm ↔
        ∃ info, (did, info) ∈ dm ∧ childPasses info = some g)) := by
  refine ⟨?_, ?_, ?_⟩
  · intro es dm hd hns
    rw [extract_depots]
    simp only [hd, extractLoop_eq_passed hns]
  · intro es h
    rw [extract_depots]
    cases hd : lookupN es depotsKey with
    | none => simp
    | some nd =>
      cases nd with
      | scalar s => simp
      | map dm => exact absurd hd (h dm)
  · intro dm did g
    rw [passedChildren, List.mem_filterMap]
    constructor
    · rintro ⟨p, hp, hfp⟩
      obtain ⟨pd, pinfo⟩ := p
      rw [Option.map_eq_some'] at hfp
      obtain ⟨g0, hg0, heq⟩ := hfp
      injection heq with he1 he2
      subst he1
      subst he2
      exact ⟨pinfo, hp, hg0⟩
    · rintro ⟨info, hin, hcp⟩
      exact ⟨(did, info), hin, by simp [hcp]⟩

/-- Claim C3 (counterexample): a depots child that is a map whose `manifests`
entry is a scalar fails the filter, so the claim demands
`NoValidDepotsError`; the code instead crashes with an uncaught Python
`AttributeError` (`.get` called on a string). -/
theorem c3_counterexample :
    extract_depots (Node.map [(depotsKey, Node.map [(("1"),
      Node.map [(manifestsKey, Node.scalar ("oops"))])])]) = .error .attrError ∧
    passedChildren [(("1"), Node.map [(manifestsKey, Node.scalar ("oops"))])] = [] ∧
    (Except.error ExtractErr.attrError :
        Except ExtractErr (List (String × String))) ≠
      Except.error ExtractErr.noValid := by
  refine ⟨rfl, rfl, ?_⟩
  intro h
  injection h with h1
  exact absurd h1 (by decide)

/-- Witness for `c3_extract_characterization` (first part) on a depots map
with one passing child and one scalar child. -/
theorem c3_witness :
    extract_depots (Node.map [(depotsKey, Node.map [(("1"),
        Node.map [(manifestsKey, Node.map [(publicKey,
          Node.map [(gidKey, Node.scalar ("555"))])])]),
      (("2"), Node.scalar ("x"))])]) =
      (if passedChildren [(("1"),
          Node.map [(manifestsKey, Node.map [(publicKey,
            Node.map [(gidKey, Node.scalar ("555"))])])]),
        (("2"), Node.scalar ("x"))] = []
       then .error .noValid
       else .ok (passedChildren [(("1"),
          Node.map [(manifestsKey, Node.map [(publicKey,
            Node.map [(gidKey, Node.scalar ("555"))])])]),
        (("2"), Node.scalar ("x"))])) :=
  c3_extract_characterization.1
    [(depotsKey, Node.map [(("1"),
        Node.map [(manifestsKey, Node.map [(publicKey,
          Node.map [(gidKey, Node.scalar ("555"))])])]),
      (("2"), Node.scalar ("x"))])]
    [(("1"), Node.map [(manifestsKey, Node.map [(publicKey,
        Node.map [(gidKey, Node.scalar ("555"))])])]),
      (("2"), Node.scalar ("x"))]
    rfl (by decide)

/-! ### Emitter lemmas -/

lemma append_head_ne_nil {x y : List Char} (h : x ≠ []) : x ++ y ≠ [] := by
  intro hc
  rcases List.append_eq_nil.mp hc with ⟨h1, _⟩
  exact h h1

lemma concatLines_append (xs ys : List (List Char)) :
    concatLines (xs ++ ys) = concatLines xs ++ concatLines ys := by
  induction xs with
  | nil => rfl
  | cons a rest ih => simp [concatLines, ih, List.append_assoc]

lemma appLine_spec (a : String) :
    (("addappid(").toList ++ a.toList ++ (")").toList) ++ ['\n'] = appLine a := by
  simp only [appLine, List.append_assoc]
  rfl

lemma regLine_spec (d : String) (k : List Char) :
    (("addappid(").toList ++ d.toList ++ (",1,\"").toList ++ k ++ ("\")").toList)
        ++ ['\n'] =
      regLine d k := by
  simp only [regLine, List.append_assoc]
  rfl

lemma manLine_spec (d g : String) :
    (("setManifestid(").toList ++ d.toList ++ (",\"").toList ++ g.toList
        ++ ("\")").toList) ++ ['\n'] =
      manLine d g := by
  simp only [manLine, List.append_assoc]
  rfl

lemma emitSpec_eq (appId : String) (rds : List ResolvedDepot) :
    emitSpec appId rds =
      appLine appId ++
        concatLines (rds.map (fun r => regLine r.depotId r.decryptionKey)) ++
        concatLines (rds.map (fun r => manLine r.depotId r.contentVersionId)) := by
  rw [emitSpec, emitSpecLines]
  rw [List.map_cons, concatLines]
  rw [List.map_append, concatLines_append]
  rw [List.map_map, List.map_map]
  simp only [Function.comp_def]
  simp only [appLine_spec, regLine_spec, manLine_spec]
  rw [List.append_assoc]

lemma alookup_map_self : ∀ {rds : List ResolvedDepot},
    (rds.map ResolvedDepot.depotId).Nodup →
    ∀ r ∈ rds,
      alookup (rds.map (fun x => (x.depotId, x.decryptionKey))) r.depotId =
        some r.decryptionKey := by
  intro rds
  induction rds with
  | nil => intro _ r hr; exact absurd hr (by simp)
  | cons r0 rest ih =>
    intro hnd r hr
    rw [List.map_cons, List.nodup_cons] at hnd
    obtain ⟨hnotin, hnd'⟩ := hnd
    rcases List.mem_cons.mp hr with heq | htail
    · subst heq
      simp [alookup]
    · rw [List.map_cons]
      by_cases hd : r0.depotId = r.depotId
      · exfalso
        apply hnotin
        rw [hd]
        exact List.mem_map.mpr ⟨r, htail, rfl⟩
      · simp only [alookup, hd, if_false]
        exact ih hnd' r htail

lemma regLines_eq (keys : List (String × List Char)) :
    ∀ rds : List ResolvedDepot,
    (∀ r ∈ rds, alookup keys r.depotId = some r.decryptionKey) →
    regLines keys (rds.map (fun r => (r.depotId, r.contentVersionId))) =
      some (concatLines (rds.map (fun r => regLine r.depotId r.decryptionKey))) := by
  intro rds
  induction rds with
  | nil => intro _; rfl
  | cons r0 rest ih =>
    intro hcov
    have h0 := hcov r0 (List.mem_cons_self _ _)
    have hr := ih (fun r hrr => hcov r (List.mem_cons_of_mem _ hrr))
    simp [regLines, h0, hr, concatLines]

lemma manLines_eq : ∀ rds : List ResolvedDepot,
    manLines (rds.map (fun r => (r.depotId, r.contentVersionId))) =
      concatLines (rds.map (fun r => manLine r.depotId r.contentVersionId)) := by
  intro rds
  induction rds with
  | nil => rfl
  | cons r0 rest ih => simp [manLines, concatLines, ih]

/-! ### Claim C5 -/

/-- Claim C5 (confirmed): for a non-empty final mapping (with distinct depot
ids, as dict keys are), `write_lua` produces exactly the §4.6/§6 grammar:
the application-registration statement, then one key-registration
statement per depot in insertion order, then one version-binding statement
per depot in the same order — each statement on its own line (every
emitted chunk is one statement followed by a newline), with no blank
lines (every line of the spec emitter is non-empty), all registrations
strictly before all bindings. -/
theorem c5_write_lua_matches_grammar (appId : String) (rds : List ResolvedDepot)
    (hnd : (rds.map ResolvedDepot.depotId).Nodup) (hne : rds ≠ []) :
    write_lua appId (rds.map (fun r => (r.depotId, r.contentVersionId)))
        (rds.map (fun r => (r.depotId, r.decryptionKey))) =
      some (emitSpec appId rds) ∧
    ∀ l ∈ emitSpecLines appId rds, l ≠ [] := by
  constructor
  · have hreg := regLines_eq (rds.map (fun x => (x.depotId, x.decryptionKey))) rds
      (fun r hr => alookup_map_self hnd r hr)
    simp only [write_lua, hreg]
    rw [manLines_eq, emitSpec_eq, List.append_assoc]
  · intro l hl
    rw [emitSpecLines] at hl
    rcases List.mem_cons.mp hl with heq | htail
    · subst heq
      exact append_head_ne_nil (append_head_ne_nil (by decide))
    · rcases List.mem_append.mp htail with hregs | hmans
      · obtain ⟨r, _, hlr⟩ := List.mem_map.mp hregs
        subst hlr
        exact append_head_ne_nil (append_head_ne_nil (append_head_ne_nil
          (append_head_ne_nil (by decide))))
      · obtain ⟨r, _, hlr⟩ := List.mem_map.mp hmans
        subst hlr
        exact append_head_ne_nil (append_head_ne_nil (append_head_ne_nil
          (append_head_ne_nil (by decide))))

/-- Witness for `c5_write_lua_matches_grammar` on two depots. -/
theorem c5_witness :
    write_lua ("42")
        (([⟨"1001", "555", ("ABCDEF").toList⟩,
           ⟨"2002", "666", ("XY").toList⟩] : List ResolvedDepot).map
          (fun r => (r.depotId, r.contentVersionId)))
        (([⟨"1001", "555", ("ABCDEF").toList⟩,
           ⟨"2002", "666", ("XY").toList⟩] : List ResolvedDepot).map
          (fun r => (r.depotId, r.decryptionKey))) =
      some (emitSpec ("42")
        ([⟨"1001", "555", ("ABCDEF").toList⟩,
          ⟨"2002", "666", ("XY").toList⟩] : List ResolvedDepot)) ∧
    ∀ l ∈ emitSpecLines ("42")
        ([⟨"1001", "555", ("ABCDEF").toList⟩,
          ⟨"2002", "666", ("XY").toList⟩] : List ResolvedDepot), l ≠ [] :=
  c5_write_lua_matches_grammar ("42")
    ([⟨"1001", "555", ("ABCDEF").toList⟩,
      ⟨"2002", "666", ("XY").toList⟩] : List ResolvedDepot)
    (by decide) (List.cons_ne_nil _ _)

/-! ### Claim C9 -/

/-- Claim C9 (confirmed): the emitter is deterministic — on equal application
ids, equal depot mappings and equal key mappings it produces byte-identical
output text. -/
theorem c9_emit_deterministic (a1 a2 : String)
    (d1 d2 : List (String × String)) (k1 k2 : List (String × List Char))
    (ha : a1 = a2) (hd : d1 = d2) (hk : k1 = k2) :
    write_lua a1 d1 k1 = write_lua a2 d2 k2 := by
  subst ha
  subst hd
  subst hk
  rfl

/-- Witness for `c9_emit_deterministic` at a concrete invocation. -/
theorem c9_witness :
    write_lua ("42") [("1", "5")] [("1", ['A'])] =
      write_lua ("42") [("1", "5")] [("1", ['A'])] :=
  c9_emit_deterministic ("42") ("42") [("1", "5")] [("1", "5")]
    [("1", ['A'])] [("1", ['A'])] rfl rfl rfl

end LuaMaker
